import Mathlib

/-!
Shallow embedding of `client/authority-discovery/src/lib.rs` (Substrate
authority discovery module).

The module publishes signed address records into a DHT keyed by the hash of
an authority id, queries the DHT for records of the current authority set,
verifies the signatures of records received from the DHT, and maintains an
address cache that is projected into a peerset priority group.

Modelling conventions:
* byte strings are `List Nat`;
* the SHA2-256 hash of an authority id is modelled by an injective
  constructor wrapping the id (`hash_authority_id`), which captures the
  determinism and collision-freeness the code relies on;
* sr25519 signatures are modelled by a concrete scheme (`pairSign` /
  `AuthorityPair.verify`) where a signature is valid exactly when it was
  produced over the same message by the pair whose public part is the
  verifying id — enough to distinguish genuine from tampered signatures;
* the protobuf codec (`AuthorityAddresses`, `SignedAuthorityAddresses`) is
  modelled by an executable length-prefixed codec with total encoders and
  fallible decoders, mirroring that prost encoding of the two record shapes
  cannot fail while decoding can;
* external collaborators (runtime backend, key store, network) are an
  explicit `Env` record; DHT puts/gets and priority-group updates are
  recorded as an `Effect` list.
-/

namespace AuthDisc

/-- Raw byte strings exchanged with the DHT and the codec. -/
abbrev Bytes := List Nat

/-- An authority's public identity (`AuthorityId`); equality by raw value. -/
abbrev AuthorityId := Nat

/-- A multiaddress, in its byte representation (`libp2p::Multiaddr`). -/
abbrev Multiaddr := List Nat

/-- The local node's peer identity (`PeerId`). -/
abbrev PeerId := Nat

/-- A DHT record key (`libp2p::kad::record::Key`), content-derived. -/
structure DhtKey where
  h : Nat
deriving DecidableEq

/-- `hash_authority_id` (lib.rs:521-525): deterministic hash of an authority
id's raw bytes into a DHT key.  Modelled as the injective wrap of the id;
for the fixed SHA2-256 algorithm the multihash encoding never fails, so the
model is total. -/
def hash_authority_id (id : AuthorityId) : DhtKey := ⟨id⟩

/-- A local signing key pair (`AuthorityPair`); identified with the id of
its public half in this model. -/
abbrev AuthorityPair := Nat

/-- The public half of a key pair (`key.public()`). -/
def pairPublic (k : AuthorityPair) : AuthorityId := k

/-- A detached signature (`AuthoritySignature`). -/
abbrev AuthoritySignature := List Nat

/-- `key.sign(msg)`: in the model the signature binds the signing key's
public id and the exact message bytes. -/
def pairSign (k : AuthorityPair) (msg : Bytes) : AuthoritySignature :=
  pairPublic k :: msg

/-- `AuthorityPair::verify(sig, msg, public)`: valid exactly when `sig` was
produced over `msg` by the pair whose public part is `public`. -/
def pairVerify (sig : AuthoritySignature) (msg : Bytes) (pub : AuthorityId) : Bool :=
  sig == pub :: msg

/-- SCALE encoding of a signature (`signature.encode()`). -/
def sigEncode (s : AuthoritySignature) : Bytes := s

/-- SCALE decoding of a signature (`AuthoritySignature::decode`); fails on
an empty byte string (a real sr25519 signature is 64 bytes). -/
def sigDecode (b : Bytes) : Option AuthoritySignature :=
  if b.isEmpty then none else some b

/-- Length-prefixed encoding of one byte-string field. -/
def encBytes (b : Bytes) : Bytes := b.length :: b

/-- Decoder matching `encBytes`: reads a length, then that many bytes,
returning the field and the remaining input. -/
def decBytes : Bytes → Option (Bytes × Bytes)
  | [] => none
  | n :: rest => if n ≤ rest.length then some (rest.take n, rest.drop n) else none

/-- Decode `n` consecutive length-prefixed fields. -/
def decFields : Nat → Bytes → Option (List Bytes × Bytes)
  | 0, rest => some ([], rest)
  | n + 1, rest =>
    match decBytes rest with
    | none => none
    | some (b, rest') =>
      match decFields n rest' with
      | none => none
      | some (bs, rest'') => some (b :: bs, rest'')

/-- Wire encoding of `schema::AuthorityAddresses { addresses }`: a count
followed by the length-prefixed address byte strings. -/
def encodeAuthorityAddresses (addresses : List Bytes) : Bytes :=
  addresses.length :: (addresses.map encBytes).flatten

/-- Wire decoding of `schema::AuthorityAddresses`. -/
def decodeAuthorityAddresses (b : Bytes) : Option (List Bytes) :=
  match b with
  | [] => none
  | n :: rest =>
    match decFields n rest with
    | some (bs, []) => some bs
    | _ => none

/-- Wire encoding of `schema::SignedAuthorityAddresses { addresses, signature }`. -/
def encodeSignedAuthorityAddresses (addresses signature : Bytes) : Bytes :=
  encBytes addresses ++ encBytes signature

/-- Wire decoding of `schema::SignedAuthorityAddresses`. -/
def decodeSignedAuthorityAddresses (b : Bytes) : Option (Bytes × Bytes) :=
  match decBytes b with
  | none => none
  | some (addresses, rest) =>
    match decBytes rest with
    | some (signature, []) => some (addresses, signature)
    | _ => none

/-- `multiaddr.to_vec()`: the byte representation of a multiaddress. -/
def multiaddrToVec (a : Multiaddr) : Bytes := a

/-- `Vec<u8> as TryInto<Multiaddr>`: parsing multiaddress bytes, which can
fail (`Error::ParsingMultiaddress`); in the model the empty byte string is
the ill-formed one. -/
def multiaddrFromBytes (b : Bytes) : Option Multiaddr :=
  if b.isEmpty then none else some b

/-- `addr.with(Protocol::P2p(peer_id))`: suffix the node's peer id onto an
address. -/
def multiaddrWithP2p (a : Multiaddr) (peer : PeerId) : Multiaddr := a ++ [peer]

/-- `collect::<Result<Vec<Multiaddr>, _>>()` over `try_into` results
(lib.rs:342-345): parse every address byte string, failing if any one
fails. -/
def collectMultiaddrs : List Bytes → Option (List Multiaddr)
  | [] => some []
  | b :: rest =>
    match multiaddrFromBytes b with
    | none => none
    | some a =>
      match collectMultiaddrs rest with
      | none => none
      | some tl => some (a :: tl)

/-- `str::parse::<Multiaddr>()` for sentry-node configuration strings: a
multiaddress string must begin with a path separator, otherwise parsing
fails. -/
def parseMultiaddr (s : String) : Option Multiaddr :=
  match s.data with
  | [] => none
  | c :: rest => if c = '/' then some ((c :: rest).map Char.toNat) else none

/-- The error taxonomy of `error.rs`, as used by lib.rs. -/
inductive Error
  | EncodingProto
  | DecodingProto
  | EncodingDecodingScale
  | HashingAuthorityId
  | CallingRuntime
  | VerifyingDhtPayload
  | MatchingHashedAuthorityIdWithAuthorityId
  | ParsingMultiaddress
  | SettingPeersetPriorityGroup
deriving DecidableEq

/-- External collaborators of the module: the chain/runtime backend
(`client.runtime_api().authorities`), the key store, and the network
state (`external_addresses`, `local_peer_id`, the outcome of
`set_priority_group`). -/
structure Env where
  authorities : Except String (List AuthorityId)
  external_addresses : List Multiaddr
  local_peer_id : PeerId
  sr25519_public_keys : List AuthorityId
  sr25519_key_pair : AuthorityId → Option AuthorityPair
  set_priority_group_ok : Bool

/-- An observable network request issued by the module. -/
inductive Effect
  | put_value (key : DhtKey) (value : Bytes)
  | get_value (key : DhtKey)
  | set_priority_group (group : String) (peers : List Multiaddr)
deriving DecidableEq

/-- An inbound event from the DHT event stream (`sc_network::DhtEvent`). -/
inductive DhtEvent
  | ValueFound (values : List (DhtKey × Bytes))
  | ValueNotFound (hash : DhtKey)
  | ValuePut (hash : DhtKey)
  | ValuePutFailed (hash : DhtKey)
deriving DecidableEq

/-- The address cache `HashMap<AuthorityId, Vec<Multiaddr>>`, modelled as an
association list whose `insert` overwrites any existing entry for the key. -/
abbrev AddressCache := List (AuthorityId × List Multiaddr)

/-- `HashMap::insert`: a later insert overwrites an earlier entry for the
same authority. -/
def cacheInsert (c : AddressCache) (a : AuthorityId) (addrs : List Multiaddr) : AddressCache :=
  (a, addrs) :: c.filter (fun p => p.1 != a)

/-- The keys currently present in the cache. -/
def cacheKeys (c : AddressCache) : List AuthorityId := c.map (fun p => p.1)

/-- `HashMap::get` on the cache model. -/
def cacheGet : AddressCache → AuthorityId → Option (List Multiaddr)
  | [], _ => none
  | (k, v) :: rest, a => if k = a then some v else cacheGet rest a

/-- Decidable form of the purge invariant: every cached key belongs to the
given authority list. -/
def cacheSubset (c : AddressCache) (auths : List AuthorityId) : Bool :=
  c.all (fun p => auths.contains p.1)

/-- A periodic tick source as produced by `interval_at` (lib.rs:527-535):
ticks at `next`, `next + period`, `next + 2*period`, …; time is in seconds. -/
structure IntervalM where
  next : Nat
  period : Nat
deriving DecidableEq

/-- `interval_at(start, duration)` (lib.rs:527-535). -/
def interval_at (start period : Nat) : IntervalM := ⟨start, period⟩

/-- Whether the interval stream is ready (has at least one pending tick) at
time `now`: its next deadline has passed. -/
def tickReady (i : IntervalM) (now : Nat) : Bool := i.next ≤ now

/-- Number of ticks of the interval pending at time `now`. -/
def pendingTicks (i : IntervalM) (now : Nat) : Nat :=
  if i.next ≤ now then (now - i.next) / i.period + 1 else 0

/-- The `while let Poll::Ready(_) = interval.poll_next_unpin(cx) {}` drain
loop: consume every pending tick, advancing the deadline one period per
consumed tick. -/
def drainTicks (i : IntervalM) (now : Nat) : IntervalM :=
  { i with next := i.next + pendingTicks i now * i.period }

/-- `LIBP2P_KADEMLIA_BOOTSTRAP_TIME` (lib.rs:86): 30 seconds. -/
def LIBP2P_KADEMLIA_BOOTSTRAP_TIME : Nat := 30

/-- `AUTHORITIES_PRIORITY_GROUP_NAME` (lib.rs:90). -/
def AUTHORITIES_PRIORITY_GROUP_NAME : String := "authorities"

/-- `MAX_NUM_SENTRY_ADDRESSES_PER_AUTHORITY` (lib.rs:96): 5. -/
def MAX_NUM_SENTRY_ADDRESSES_PER_AUTHORITY : Nat := 5

/-- The mutable state of an `AuthorityDiscovery` value: sentry-node
configuration, the queue of ready inbound DHT events, the two intervals and
the address cache. -/
structure ADState where
  sentry_nodes : Option (List Multiaddr)
  dht_event_rx : List DhtEvent
  publish_interval : IntervalM
  query_interval : IntervalM
  address_cache : AddressCache
deriving DecidableEq

/-- `AuthorityDiscovery::new` (lib.rs:149-213), with `now` the construction
instant.  Sentry configuration: `None` when no addresses were specified,
`Some` of the successfully parsed addresses otherwise (parse failures are
dropped with a log line; more than 5 parsed addresses only logs a warning). -/
def new (now : Nat) (sentry_nodes : List String) (dht_event_rx : List DhtEvent) : ADState :=
  let publish_interval := interval_at (now + LIBP2P_KADEMLIA_BOOTSTRAP_TIME) (12 * 60 * 60)
  let query_interval := interval_at (now + LIBP2P_KADEMLIA_BOOTSTRAP_TIME) (10 * 60)
  let sentry := if sentry_nodes.isEmpty then none
    else some (sentry_nodes.filterMap parseMultiaddr)
  { sentry_nodes := sentry, dht_event_rx, publish_interval, query_interval, address_cache := [] }

/-- `get_own_public_keys_within_authority_set` (lib.rs:408-431): the
intersection of the locally held discovery public keys with the current
authority set (both as hash sets, modelled by deduplication). -/
def get_own_public_keys_within_authority_set (env : Env) : Except Error (List AuthorityId) :=
  match env.authorities with
  | .error _ => .error .CallingRuntime
  | .ok current_authorities =>
    .ok ((env.sr25519_public_keys.filter (fun k => current_authorities.contains k)).dedup)

/-- `get_priv_keys_within_authority_set` (lib.rs:389-400): map the public
keys of the intersection back through the key store to signing pairs,
keeping only keys the store can produce a pair for. -/
def get_priv_keys_within_authority_set (env : Env) : Except Error (List AuthorityPair) :=
  match get_own_public_keys_within_authority_set env with
  | .error e => .error e
  | .ok keys => .ok (keys.filterMap env.sr25519_key_pair)

/-- `publish_ext_addresses` (lib.rs:216-253): choose the address list
(sentry addresses if configured, otherwise own external addresses suffixed
with the local peer id), serialize it once, then for every private key in
the authority set sign it and put the signed record under the hash of that
key's public id. -/
def publish_ext_addresses (env : Env) (st : ADState) : Except Error (List Effect) :=
  let addresses : List Bytes :=
    match st.sentry_nodes with
    | some addrs => addrs.map multiaddrToVec
    | none =>
      (env.external_addresses.map (fun a => multiaddrWithP2p a env.local_peer_id)).map
        multiaddrToVec
  let serialized_addresses := encodeAuthorityAddresses addresses
  match get_priv_keys_within_authority_set env with
  | .error e => .error e
  | .ok keys =>
    .ok (keys.map (fun key =>
      let signature := pairSign key serialized_addresses
      let signed_addresses :=
        encodeSignedAuthorityAddresses serialized_addresses (sigEncode signature)
      Effect.put_value (hash_authority_id (pairPublic key)) signed_addresses))

/-- The address list advertised when no sentry nodes are configured
(lib.rs:221-227): the node's own external addresses, each suffixed with
the local peer id, in byte form. -/
def ownAddresses (env : Env) : List Bytes :=
  (env.external_addresses.map (fun a => multiaddrWithP2p a env.local_peer_id)).map multiaddrToVec

/-- The signed record put on the DHT for one key (lib.rs:236-244). -/
def signedRecord (key : AuthorityPair) (serialized : Bytes) : Bytes :=
  encodeSignedAuthorityAddresses serialized (sigEncode (pairSign key serialized))

/-- `request_addresses_of_others` (lib.rs:255-270): fetch the authority set
once from the runtime and issue one DHT get per authority, keyed by the
hash of its id; the state is untouched. -/
def request_addresses_of_others (env : Env) (st : ADState) :
    ADState × Except Error (List Effect) :=
  match env.authorities with
  | .error _ => (st, .error .CallingRuntime)
  | .ok authorities =>
    (st, .ok (authorities.map (fun a => Effect.get_value (hash_authority_id a))))

/-- `purge_old_authorities_from_cache` (lib.rs:382-385): retain exactly the
cache entries whose key is in the current authority set. -/
def purge_old_authorities_from_cache (cache : AddressCache)
    (current_authorities : List AuthorityId) : AddressCache :=
  cache.filter (fun p => current_authorities.contains p.1)

/-- Lookup in the reverse index `hash(AuthorityId) -> AuthorityId`
(the `HashMap` built at lib.rs:317-320). -/
def authLookup : List (DhtKey × AuthorityId) → DhtKey → Option AuthorityId
  | [], _ => none
  | (h, id) :: rest, key => if h = key then some id else authLookup rest key

/-- The reverse index built from the authority-set snapshot
(lib.rs:317-320). -/
def authorityIndex (auths : List AuthorityId) : List (DhtKey × AuthorityId) :=
  auths.map (fun id => (hash_authority_id id, id))

/-- The per-pair body of the `for (key, value) in values.iter()` loop of
`handle_dht_value_found_event` (lib.rs:322-357): resolve the key against
the reverse index, decode the signed record, decode and verify the
signature, decode and parse the inner address list, truncating it to
`MAX_NUM_SENTRY_ADDRESSES_PER_AUTHORITY` entries when longer. -/
def checkPair (authorities : List (DhtKey × AuthorityId)) (key : DhtKey) (value : Bytes) :
    Except Error (AuthorityId × List Multiaddr) :=
  match authLookup authorities key with
  | none => .error .MatchingHashedAuthorityIdWithAuthorityId
  | some authority_id =>
    match decodeSignedAuthorityAddresses value with
    | none => .error .DecodingProto
    | some (addresses, signature) =>
      match sigDecode signature with
      | none => .error .EncodingDecodingScale
      | some sig =>
        if !pairVerify sig addresses authority_id then .error .VerifyingDhtPayload
        else
          match decodeAuthorityAddresses addresses with
          | none => .error .DecodingProto
          | some addrBytes =>
            match collectMultiaddrs addrBytes with
            | none => .error .ParsingMultiaddress
            | some addrs =>
              let addrs :=
                if addrs.length > MAX_NUM_SENTRY_ADDRESSES_PER_AUTHORITY
                then addrs.take MAX_NUM_SENTRY_ADDRESSES_PER_AUTHORITY
                else addrs
              .ok (authority_id, addrs)

/-- The `for` loop of `handle_dht_value_found_event` over the batch
(lib.rs:322-360): process pairs in order, inserting each successfully
verified record into the cache; the first failing pair aborts the loop
with its error, leaving the cache as accumulated so far. -/
def processValues (authorities : List (DhtKey × AuthorityId)) :
    AddressCache → List (DhtKey × Bytes) → AddressCache × Option Error
  | cache, [] => (cache, none)
  | cache, (key, value) :: rest =>
    match checkPair authorities key value with
    | .error e => (cache, some e)
    | .ok (authority_id, addrs) =>
      processValues authorities (cacheInsert cache authority_id addrs) rest

/-- The cache produced by running the per-pair loop body over a list of
pairs, ignoring failing pairs: used to describe the cache accumulated by
the prefix of a batch that processed successfully. -/
def insertChecked (idx : List (DhtKey × AuthorityId)) (cache : AddressCache)
    (pairs : List (DhtKey × Bytes)) : AddressCache :=
  pairs.foldl (fun c p =>
    match checkPair idx p.1 p.2 with
    | .ok (a, ad) => cacheInsert c a ad
    | .error _ => c) cache

/-- The priority address set (lib.rs:364-369): the deduplicated union of
all address lists in the cache. -/
def prioritySet (cache : AddressCache) : List Multiaddr :=
  ((cache.map (fun p => p.2)).flatten).dedup

/-- `handle_dht_value_found_event` (lib.rs:303-380): snapshot the authority
set, purge stale cache entries, build the reverse index, process the batch,
and — only if the whole batch succeeded — push the recomputed priority set
to the peerset.  Returns the final cache, the issued network effects and
the error, if any. -/
def handle_dht_value_found_event (env : Env) (cache : AddressCache)
    (values : List (DhtKey × Bytes)) : AddressCache × List Effect × Option Error :=
  match env.authorities with
  | .error _ => (cache, [], some .CallingRuntime)
  | .ok auths =>
    let cache := purge_old_authorities_from_cache cache auths
    match processValues (authorityIndex auths) cache values with
    | (cache, some e) => (cache, [], some e)
    | (cache, none) =>
      let addresses := prioritySet cache
      let eff := Effect.set_priority_group AUTHORITIES_PRIORITY_GROUP_NAME addresses
      if env.set_priority_group_ok then (cache, [eff], none)
      else (cache, [eff], some .SettingPeersetPriorityGroup)

/-- `handle_dht_events` (lib.rs:272-301): drain the ready events of the
inbound stream in order; `ValueFound` events run the verification pipeline
and their first error aborts the drain (the remaining ready events stay
queued); the other three event kinds are logged only.  Returns the final
cache, the remaining queue, the issued effects and the error, if any. -/
def handle_dht_events (env : Env) :
    AddressCache → List DhtEvent → AddressCache × List DhtEvent × List Effect × Option Error
  | cache, [] => (cache, [], [], none)
  | cache, .ValueFound v :: rest =>
    match handle_dht_value_found_event env cache v with
    | (cache', effs, some e) => (cache', rest, effs, some e)
    | (cache', effs, none) =>
      let r := handle_dht_events env cache' rest
      (r.1, r.2.1, effs ++ r.2.2.1, r.2.2.2)
  | cache, .ValueNotFound _ :: rest => handle_dht_events env cache rest
  | cache, .ValuePut _ :: rest => handle_dht_events env cache rest
  | cache, .ValuePutFailed _ :: rest => handle_dht_events env cache rest

/-- The event-draining step of `poll` (lib.rs:446). -/
def eventPhase (env : Env) (st : ADState) : ADState × List Effect × Option Error :=
  let r := handle_dht_events env st.address_cache st.dht_event_rx
  ({ st with address_cache := r.1, dht_event_rx := r.2.1 }, r.2.2.1, r.2.2.2)

/-- The publish-interval step of `poll` (lib.rs:448-456): if the interval
is ready, drain all its pending ticks, then publish once. -/
def publishPhase (env : Env) (st : ADState) (now : Nat) : ADState × List Effect × Option Error :=
  if tickReady st.publish_interval now then
    let st := { st with publish_interval := drainTicks st.publish_interval now }
    match publish_ext_addresses env st with
    | .error e => (st, [], some e)
    | .ok puts => (st, puts, none)
  else (st, [], none)

/-- The query-interval step of `poll` (lib.rs:458-466): if the interval is
ready, drain all its pending ticks, then request the addresses of the
other authorities once. -/
def queryPhase (env : Env) (st : ADState) (now : Nat) : ADState × List Effect × Option Error :=
  if tickReady st.query_interval now then
    let st := { st with query_interval := drainTicks st.query_interval now }
    match request_addresses_of_others env st with
    | (st, .error e) => (st, [], some e)
    | (st, .ok gets) => (st, gets, none)
  else (st, [], none)

/-- The `inner` closure of `poll` (lib.rs:444-469): events first, then the
publish interval, then the query interval, each `?` aborting the rest. -/
def pollInner (env : Env) (st : ADState) (now : Nat) : ADState × List Effect × Option Error :=
  match eventPhase env st with
  | (st1, effs1, some e) => (st1, effs1, some e)
  | (st1, effs1, none) =>
    match publishPhase env st1 now with
    | (st2, effs2, some e) => (st2, effs1 ++ effs2, some e)
    | (st2, effs2, none) =>
      match queryPhase env st2 now with
      | (st3, effs3, err3) => (st3, effs1 ++ effs2 ++ effs3, err3)

/-- The result of one `Future::poll` invocation. -/
inductive PollResult
  | Ready
  | Pending
deriving DecidableEq

/-- `Future::poll` for `AuthorityDiscovery` (lib.rs:443-479): run the inner
sequence, log and discard its error, and always return `Poll::Pending`. -/
def poll (env : Env) (st : ADState) (now : Nat) : ADState × List Effect × PollResult :=
  match pollInner env st now with
  | (st', effs, _) => (st', effs, PollResult.Pending)

/-! Concrete collaborators and records used by the witness theorems. -/

/-- A concrete environment: authority set `{1, 2}`, one local key `1`
whose signing pair is available, two external addresses, peer id `7`. -/
def envW : Env :=
  { authorities := .ok [1, 2], external_addresses := [[10], [20]], local_peer_id := 7,
    sr25519_public_keys := [1], sr25519_key_pair := fun k => if k = 1 then some 1 else none,
    set_priority_group_ok := true }

/-- `envW` with a failing runtime backend. -/
def envErrW : Env := { envW with authorities := .error "backend failure" }

/-- A concrete serialized address list. -/
def msgW : Bytes := encodeAuthorityAddresses [[10]]

/-- A well-formed signed record for authority `1` over `msgW`. -/
def validValueW : Bytes := encodeSignedAuthorityAddresses msgW (sigEncode (pairSign 1 msgW))

/-- A record for authority `1` whose signature was produced by key `2`:
a tampered signature that fails verification against `1`. -/
def tamperedValueW : Bytes := encodeSignedAuthorityAddresses msgW (sigEncode (pairSign 2 msgW))

/-- A state whose publish interval has fired (deadline 30, polled at time
100), whose query interval has not, and whose event queue holds a
`ValueFound` batch with a key matching no authority followed by a valid
one. -/
def stBadEventW : ADState :=
  { sentry_nodes := none,
    dht_event_rx := [DhtEvent.ValueFound [(⟨99⟩, [])],
      DhtEvent.ValueFound [(hash_authority_id 1, validValueW)]],
    publish_interval := interval_at 30 (12 * 60 * 60),
    query_interval := interval_at 1000000 (10 * 60), address_cache := [] }

/-- A state configured with six sentry addresses. -/
def stSentry6W : ADState :=
  { sentry_nodes := some [[1], [2], [3], [4], [5], [6]], dht_event_rx := [],
    publish_interval := interval_at 30 (12 * 60 * 60),
    query_interval := interval_at 30 (10 * 60), address_cache := [] }

/-! Round-trip facts about the model codec and signature scheme. -/

theorem decBytes_encBytes (b r : Bytes) : decBytes (encBytes b ++ r) = some (b, r) := by
  simp [encBytes, decBytes, List.take_left, List.drop_left]

theorem decFields_encoded (xs : List Bytes) (r : Bytes) :
    decFields xs.length ((xs.map encBytes).flatten ++ r) = some (xs, r) := by
  induction xs generalizing r with
  | nil => simp [decFields]
  | cons x tl ih =>
    simp only [List.length_cons, List.map_cons, List.flatten_cons, List.append_assoc, decFields,
      decBytes_encBytes]
    rw [ih]

theorem decode_encode_authorityAddresses (xs : List Bytes) :
    decodeAuthorityAddresses (encodeAuthorityAddresses xs) = some xs := by
  have h := decFields_encoded xs []
  simp only [List.append_nil] at h
  simp [encodeAuthorityAddresses, decodeAuthorityAddresses, h]

theorem decode_encode_signedAuthorityAddresses (a s : Bytes) :
    decodeSignedAuthorityAddresses (encodeSignedAuthorityAddresses a s) = some (a, s) := by
  have h1 := decBytes_encBytes a (encBytes s)
  have h2 := decBytes_encBytes s []
  simp only [List.append_nil] at h2
  simp [encodeSignedAuthorityAddresses, decodeSignedAuthorityAddresses, h1, h2]

theorem sigDecode_sigEncode_sign (k : AuthorityPair) (m : Bytes) :
    sigDecode (sigEncode (pairSign k m)) = some (pairSign k m) := by
  simp [sigDecode, sigEncode, pairSign]

theorem pairVerify_sign (k : AuthorityPair) (m : Bytes) :
    pairVerify (pairSign k m) m (pairPublic k) = true := by
  simp [pairVerify, pairSign]

/-! Helper lemmas about the verification pipeline. -/

theorem cacheSubset_purge (cache : AddressCache) (auths : List AuthorityId) :
    cacheSubset (purge_old_authorities_from_cache cache auths) auths = true := by
  simp only [cacheSubset, purge_old_authorities_from_cache, List.all_eq_true]
  intro p hp
  exact (List.mem_filter.mp hp).2

theorem cacheSubset_insert {c : AddressCache} {auths : List AuthorityId} {a : AuthorityId}
    (ad : List Multiaddr) (hc : cacheSubset c auths = true) (ha : a ∈ auths) :
    cacheSubset (cacheInsert c a ad) auths = true := by
  simp only [cacheSubset, cacheInsert, List.all_eq_true] at *
  intro p hp
  rcases List.mem_cons.mp hp with h | h
  · subst h; simpa using ha
  · exact hc p (List.mem_of_mem_filter h)

theorem authLookup_authorityIndex {auths : List AuthorityId} {k : DhtKey} {a : AuthorityId}
    (h : authLookup (authorityIndex auths) k = some a) : a ∈ auths := by
  induction auths with
  | nil => simp [authorityIndex, authLookup] at h
  | cons x tl ih =>
    simp only [authorityIndex, List.map_cons, authLookup] at h
    by_cases hx : hash_authority_id x = k
    · simp only [hx, if_pos rfl] at h
      exact (Option.some_injective _ h) ▸ List.mem_cons_self x tl
    · rw [if_neg hx] at h
      exact List.mem_cons_of_mem x (ih h)

theorem checkPair_ok_lookup {idx : List (DhtKey × AuthorityId)} {k : DhtKey} {v : Bytes}
    {a : AuthorityId} {ad : List Multiaddr} (h : checkPair idx k v = .ok (a, ad)) :
    authLookup idx k = some a := by
  cases hl : authLookup idx k with
  | none => simp [checkPair, hl] at h
  | some a' =>
    cases hd : decodeSignedAuthorityAddresses v with
    | none => simp [checkPair, hl, hd] at h
    | some p =>
      obtain ⟨ab, sb⟩ := p
      cases hs : sigDecode sb with
      | none => simp [checkPair, hl, hd, hs] at h
      | some sg =>
        by_cases hv : pairVerify sg ab a' = true
        · cases hda : decodeAuthorityAddresses ab with
          | none => simp [checkPair, hl, hd, hs, hv, hda] at h
          | some bs =>
            cases hcm : collectMultiaddrs bs with
            | none => simp [checkPair, hl, hd, hs, hv, hda, hcm] at h
            | some addrs =>
              simp only [checkPair, hl, hd, hs, hv, Bool.not_true, Bool.false_eq_true,
                if_false, hda, hcm, Except.ok.injEq, Prod.mk.injEq] at h
              exact congrArg some h.1
        · have hv' : pairVerify sg ab a' = false := by simpa using hv
          simp [checkPair, hl, hd, hs, hv'] at h

theorem processValues_subset {auths : List AuthorityId} {c : AddressCache}
    (vs : List (DhtKey × Bytes)) (hc : cacheSubset c auths = true) :
    cacheSubset (processValues (authorityIndex auths) c vs).1 auths = true := by
  induction vs generalizing c with
  | nil => simpa [processValues]
  | cons p rest ih =>
    obtain ⟨k, v⟩ := p
    simp only [processValues]
    cases hcp : checkPair (authorityIndex auths) k v with
    | error e => simpa
    | ok r =>
      obtain ⟨a, ad⟩ := r
      exact ih (cacheSubset_insert ad hc (authLookup_authorityIndex (checkPair_ok_lookup hcp)))

theorem checkPair_unknown {idx : List (DhtKey × AuthorityId)} {k : DhtKey} (v : Bytes)
    (hl : authLookup idx k = none) :
    checkPair idx k v = .error .MatchingHashedAuthorityIdWithAuthorityId := by
  simp [checkPair, hl]

theorem checkPair_badsig {idx : List (DhtKey × AuthorityId)} {k : DhtKey} {v : Bytes}
    {a : AuthorityId} {ab sb : Bytes} {sg : AuthoritySignature}
    (hl : authLookup idx k = some a) (hd : decodeSignedAuthorityAddresses v = some (ab, sb))
    (hs : sigDecode sb = some sg) (hv : pairVerify sg ab a = false) :
    checkPair idx k v = .error .VerifyingDhtPayload := by
  simp [checkPair, hl, hd, hs, hv]

theorem checkPair_valid {idx : List (DhtKey × AuthorityId)} {k : DhtKey} {v : Bytes}
    {a : AuthorityId} {ab sb : Bytes} {sg : AuthoritySignature} {bs : List Bytes}
    {addrs : List Multiaddr}
    (hl : authLookup idx k = some a) (hd : decodeSignedAuthorityAddresses v = some (ab, sb))
    (hs : sigDecode sb = some sg) (hv : pairVerify sg ab a = true)
    (hda : decodeAuthorityAddresses ab = some bs) (hcm : collectMultiaddrs bs = some addrs) :
    checkPair idx k v =
      .ok (a, if addrs.length > MAX_NUM_SENTRY_ADDRESSES_PER_AUTHORITY
              then addrs.take MAX_NUM_SENTRY_ADDRESSES_PER_AUTHORITY else addrs) := by
  simp [checkPair, hl, hd, hs, hv, hda, hcm]

theorem processValues_cons_err {idx : List (DhtKey × AuthorityId)} {k : DhtKey} {v : Bytes}
    {e : Error} (cache : AddressCache) (rest : List (DhtKey × Bytes))
    (hc : checkPair idx k v = .error e) :
    processValues idx cache ((k, v) :: rest) = (cache, some e) := by
  simp [processValues, hc]

theorem processValues_cons_ok {idx : List (DhtKey × AuthorityId)} {k : DhtKey} {v : Bytes}
    {a : AuthorityId} {ad : List Multiaddr} (cache : AddressCache)
    (rest : List (DhtKey × Bytes)) (hc : checkPair idx k v = .ok (a, ad)) :
    processValues idx cache ((k, v) :: rest) = processValues idx (cacheInsert cache a ad) rest := by
  simp [processValues, hc]

theorem handle_eq_of_processValues_err {env : Env} {auths : List AuthorityId}
    {cache c : AddressCache} {values : List (DhtKey × Bytes)} {e : Error}
    (h : env.authorities = .ok auths)
    (hpv : processValues (authorityIndex auths) (purge_old_authorities_from_cache cache auths)
      values = (c, some e)) :
    handle_dht_value_found_event env cache values = (c, [], some e) := by
  simp [handle_dht_value_found_event, h, hpv]

theorem purge_eq_self_of_subset {cache : AddressCache} {auths : List AuthorityId}
    (h : cacheSubset cache auths = true) :
    purge_old_authorities_from_cache cache auths = cache := by
  simp only [cacheSubset, List.all_eq_true] at h
  exact List.filter_eq_self.mpr h

theorem cacheGet_insert (c : AddressCache) (a : AuthorityId) (ad : List Multiaddr) :
    cacheGet (cacheInsert c a ad) a = some ad := by
  simp [cacheGet, cacheInsert]

/-- Claim C1: after any invocation of `handle_dht_value_found_event` for
which the authority-set snapshot fetched at the start of the pass is
`auths`, every authority id present as a key of the resulting address
cache is a member of `auths` — stale entries are purged before any new
entry is inserted in the same pass. -/
theorem c1_cache_keys_within_snapshot (env : Env) (cache : AddressCache)
    (values : List (DhtKey × Bytes)) (auths : List AuthorityId)
    (h : env.authorities = .ok auths) :
    cacheSubset (handle_dht_value_found_event env cache values).1 auths = true := by
  have hmain := @processValues_subset auths (purge_old_authorities_from_cache cache auths)
    values (cacheSubset_purge cache auths)
  cases hpv : processValues (authorityIndex auths) (purge_old_authorities_from_cache cache auths)
      values with
  | mk c' err =>
    rw [hpv] at hmain
    simp only at hmain
    cases err with
    | some e => simpa [handle_dht_value_found_event, h, hpv] using hmain
    | none =>
      cases hok : env.set_priority_group_ok <;>
        simpa [handle_dht_value_found_event, h, hpv, hok] using hmain

/-- Witness for C1 at a concrete input: a stale cache entry for authority
`3` and a valid record for authority `1` leave only members of `[1, 2]` in
the cache. -/
theorem c1_cache_keys_within_snapshot_witness :
    envW.authorities = .ok [1, 2] ∧
      cacheSubset
        (handle_dht_value_found_event envW [(3, [[9]])] [(hash_authority_id 1, validValueW)]).1
        [1, 2] = true :=
  ⟨rfl, c1_cache_keys_within_snapshot envW [(3, [[9]])] [(hash_authority_id 1, validValueW)]
    [1, 2] rfl⟩

/-- Claim C2: processing a `ValueFound` batch aborts on the first pair
whose key resolves to no current authority (with
`MatchingHashedAuthorityIdWithAuthorityId`, the UnknownAuthorityError)
or whose signature fails verification (with `VerifyingDhtPayload`, the
VerificationError): the remaining pairs of the batch are not processed and
no priority-group push is issued; in particular, for a batch holding one
entry keyed by `hash(A)` with a tampered signature, a cache whose keys all
lie in the current authority set is left unchanged, with no entry added
for `A`, and no push occurs. -/
theorem c2_batch_abort_on_bad_record (env : Env) (cache : AddressCache)
    (auths : List AuthorityId) (key : DhtKey) (value : Bytes) (rest : List (DhtKey × Bytes))
    (h : env.authorities = .ok auths) :
    (authLookup (authorityIndex auths) key = none →
      handle_dht_value_found_event env cache ((key, value) :: rest) =
        (purge_old_authorities_from_cache cache auths, [],
          some .MatchingHashedAuthorityIdWithAuthorityId))
    ∧ (∀ a ab sb sg, authLookup (authorityIndex auths) key = some a →
        decodeSignedAuthorityAddresses value = some (ab, sb) →
        sigDecode sb = some sg →
        pairVerify sg ab a = false →
        handle_dht_value_found_event env cache ((key, value) :: rest) =
          (purge_old_authorities_from_cache cache auths, [], some .VerifyingDhtPayload))
    ∧ (cacheSubset cache auths = true →
        ∀ a ab sb sg, authLookup (authorityIndex auths) key = some a →
        decodeSignedAuthorityAddresses value = some (ab, sb) →
        sigDecode sb = some sg →
        pairVerify sg ab a = false →
        handle_dht_value_found_event env cache ((key, value) :: rest) =
          (cache, [], some .VerifyingDhtPayload)) := by
  refine ⟨fun hl => ?_, fun a ab sb sg hl hd hs hv => ?_, fun hsub a ab sb sg hl hd hs hv => ?_⟩
  · exact handle_eq_of_processValues_err h
      (processValues_cons_err _ _ (checkPair_unknown value hl))
  · exact handle_eq_of_processValues_err h
      (processValues_cons_err _ _ (checkPair_badsig hl hd hs hv))
  · have := handle_eq_of_processValues_err h
      (processValues_cons_err (purge_old_authorities_from_cache cache auths) rest
        (checkPair_badsig hl hd hs hv))
    rwa [purge_eq_self_of_subset hsub] at this

/-- Witness for C2 at a concrete input: the batch
`[(hash 1, tamperedValueW)]` leaves the empty cache unchanged, pushes
nothing, and fails with the verification error. -/
theorem c2_batch_abort_on_bad_record_witness :
    handle_dht_value_found_event envW [] [(hash_authority_id 1, tamperedValueW)] =
      ([], [], some .VerifyingDhtPayload) :=
  (c2_batch_abort_on_bad_record envW [] [1, 2] (hash_authority_id 1) tamperedValueW [] rfl).2.2
    (by decide) 1 msgW (sigEncode (pairSign 2 msgW)) (pairSign 2 msgW)
    (by decide) (by decide) (by decide) (by decide)

/-- Claim C3: a verified record whose decoded address list has more than 5
entries is cached as exactly the first 5 entries and processing of the
batch continues; a list of at most 5 entries is cached in full.  The bound
is the constant `MAX_NUM_SENTRY_ADDRESSES_PER_AUTHORITY = 5`. -/
theorem c3_truncate_received_addresses (idx : List (DhtKey × AuthorityId))
    (cache : AddressCache) (key : DhtKey) (value : Bytes) (rest : List (DhtKey × Bytes))
    (a : AuthorityId) (ab sb : Bytes) (sg : AuthoritySignature) (bs : List Bytes)
    (addrs : List Multiaddr)
    (hl : authLookup idx key = some a) (hd : decodeSignedAuthorityAddresses value = some (ab, sb))
    (hs : sigDecode sb = some sg) (hv : pairVerify sg ab a = true)
    (hda : decodeAuthorityAddresses ab = some bs) (hcm : collectMultiaddrs bs = some addrs) :
    MAX_NUM_SENTRY_ADDRESSES_PER_AUTHORITY = 5
    ∧ (5 < addrs.length →
        processValues idx cache ((key, value) :: rest) =
          processValues idx (cacheInsert cache a (addrs.take 5)) rest
        ∧ cacheGet (cacheInsert cache a (addrs.take 5)) a = some (addrs.take 5))
    ∧ (addrs.length ≤ 5 →
        processValues idx cache ((key, value) :: rest) =
          processValues idx (cacheInsert cache a addrs) rest
        ∧ cacheGet (cacheInsert cache a addrs) a = some addrs) := by
  have hcp := checkPair_valid hl hd hs hv hda hcm
  refine ⟨rfl, fun hlen => ?_, fun hlen => ?_⟩
  · rw [if_pos (by simpa [MAX_NUM_SENTRY_ADDRESSES_PER_AUTHORITY] using hlen)] at hcp
    exact ⟨processValues_cons_ok _ _ hcp, cacheGet_insert _ _ _⟩
  · rw [if_neg (by simp [MAX_NUM_SENTRY_ADDRESSES_PER_AUTHORITY]; omega)] at hcp
    exact ⟨processValues_cons_ok _ _ hcp, cacheGet_insert _ _ _⟩

/-- Witness for C3 at a concrete input: a record carrying seven addresses
for authority `1` is cached as its first five addresses. -/
theorem c3_truncate_received_addresses_witness :
    5 < ([[11], [12], [13], [14], [15], [16], [17]] : List Multiaddr).length
    ∧ processValues (authorityIndex [1, 2]) []
        [(hash_authority_id 1,
          encodeSignedAuthorityAddresses
            (encodeAuthorityAddresses [[11], [12], [13], [14], [15], [16], [17]])
            (sigEncode (pairSign 1
              (encodeAuthorityAddresses [[11], [12], [13], [14], [15], [16], [17]]))))] =
      processValues (authorityIndex [1, 2])
        (cacheInsert [] 1 (([[11], [12], [13], [14], [15], [16], [17]] : List Multiaddr).take 5))
        [] := by
  refine ⟨by decide, ?_⟩
  exact (c3_truncate_received_addresses (authorityIndex [1, 2]) [] (hash_authority_id 1)
    (encodeSignedAuthorityAddresses
      (encodeAuthorityAddresses [[11], [12], [13], [14], [15], [16], [17]])
      (sigEncode (pairSign 1
        (encodeAuthorityAddresses [[11], [12], [13], [14], [15], [16], [17]]))))
    [] 1
    (encodeAuthorityAddresses [[11], [12], [13], [14], [15], [16], [17]])
    (sigEncode (pairSign 1 (encodeAuthorityAddresses [[11], [12], [13], [14], [15], [16], [17]])))
    (pairSign 1 (encodeAuthorityAddresses [[11], [12], [13], [14], [15], [16], [17]]))
    [[11], [12], [13], [14], [15], [16], [17]]
    [[11], [12], [13], [14], [15], [16], [17]]
    (by decide) (by decide) (by decide) (by decide) (by decide) (by decide)).2.1
    (by decide) |>.1

/-- Claim C4: with no sentry nodes configured and the key store holding
exactly one key `A` that is inside the current authority set (with its
signing pair available), `publish_ext_addresses` issues exactly one DHT
put, keyed by `hash(A)`, whose payload is a signed record that decodes to
a signature verifying against `A` over the serialized address list, and
whose inner bytes decode to the node's external addresses each suffixed
with its own peer id. -/
theorem c4_publish_one_put (env : Env) (st : ADState) (A : AuthorityId)
    (auths : List AuthorityId)
    (hsentry : st.sentry_nodes = none) (hauth : env.authorities = .ok auths)
    (hkeys : env.sr25519_public_keys = [A]) (hA : A ∈ auths)
    (hpair : env.sr25519_key_pair A = some A) :
    publish_ext_addresses env st =
      .ok [Effect.put_value (hash_authority_id A)
        (signedRecord A (encodeAuthorityAddresses (ownAddresses env)))]
    ∧ decodeSignedAuthorityAddresses (signedRecord A (encodeAuthorityAddresses (ownAddresses env)))
        = some (encodeAuthorityAddresses (ownAddresses env),
            sigEncode (pairSign A (encodeAuthorityAddresses (ownAddresses env))))
    ∧ sigDecode (sigEncode (pairSign A (encodeAuthorityAddresses (ownAddresses env))))
        = some (pairSign A (encodeAuthorityAddresses (ownAddresses env)))
    ∧ pairVerify (pairSign A (encodeAuthorityAddresses (ownAddresses env)))
        (encodeAuthorityAddresses (ownAddresses env)) A = true
    ∧ decodeAuthorityAddresses (encodeAuthorityAddresses (ownAddresses env))
        = some (ownAddresses env) := by
  have hown : get_own_public_keys_within_authority_set env = .ok [A] := by
    simp [get_own_public_keys_within_authority_set, hauth, hkeys, hA]
  have hpriv : get_priv_keys_within_authority_set env = .ok [A] := by
    simp [get_priv_keys_within_authority_set, hown, hpair]
  refine ⟨?_, decode_encode_signedAuthorityAddresses _ _, sigDecode_sigEncode_sign _ _,
    by simpa [pairPublic] using pairVerify_sign A (encodeAuthorityAddresses (ownAddresses env)),
    decode_encode_authorityAddresses _⟩
  simp [publish_ext_addresses, hsentry, hpriv, ownAddresses, signedRecord, pairPublic]

/-- Witness for C4 at a concrete input: `envW` holds exactly key `1` of the
authority set `[1, 2]`, no sentry nodes are configured, and publishing
issues the single expected put. -/
theorem c4_publish_one_put_witness :
    publish_ext_addresses envW (new 0 [] []) =
      .ok [Effect.put_value (hash_authority_id 1)
        (signedRecord 1 (encodeAuthorityAddresses (ownAddresses envW)))] :=
  (c4_publish_one_put envW (new 0 [] []) 1 [1, 2] rfl rfl rfl (by decide) (by decide)).1

/-- Claim C5: when a sentry-node address list was supplied but every entry
failed to parse, the constructed state is "configured, zero parsed
addresses" (`some []`, distinct from `none`), and in that state
`publish_ext_addresses` does not fall back to the node's own external
addresses: every record it publishes carries the empty address list. -/
theorem c5_configured_but_empty (now : Nat) (ss : List String) (events : List DhtEvent)
    (env : Env) (hne : ss ≠ []) (hbad : ∀ s ∈ ss, parseMultiaddr s = none) :
    (new now ss events).sentry_nodes = some []
    ∧ publish_ext_addresses env (new now ss events) =
        (match get_priv_keys_within_authority_set env with
         | .error e => .error e
         | .ok keys => .ok (keys.map (fun key =>
             Effect.put_value (hash_authority_id (pairPublic key))
               (signedRecord key (encodeAuthorityAddresses []))))) := by
  have hfm : ss.filterMap parseMultiaddr = [] := List.filterMap_eq_nil_iff.mpr hbad
  have hie : ss.isEmpty = false := by
    cases ss with
    | nil => exact absurd rfl hne
    | cons a tl => rfl
  have hsn : (new now ss events).sentry_nodes = some [] := by
    simp [new, hie, hfm]
  refine ⟨hsn, ?_⟩
  cases hk : get_priv_keys_within_authority_set env with
  | error e => simp [publish_ext_addresses, hsn, hk]
  | ok keys => simp [publish_ext_addresses, hsn, hk, signedRecord]

/-- Witness for C5 at a concrete input: the sentry list
`["not-a-valid-address"]` parses to nothing, the state is `some []`, and
the single record published under `envW` carries the empty address list. -/
theorem c5_configured_but_empty_witness :
    (new 0 ["not-a-valid-address"] []).sentry_nodes = some []
    ∧ publish_ext_addresses envW (new 0 ["not-a-valid-address"] []) =
        .ok [Effect.put_value (hash_authority_id 1)
          (signedRecord 1 (encodeAuthorityAddresses []))] := by
  have h := c5_configured_but_empty 0 ["not-a-valid-address"] [] envW
    (by decide) (by decide)
  refine ⟨h.1, ?_⟩
  rw [h.2]
  rfl

/-- Claim C6: `request_addresses_of_others` reads the authority-set
snapshot from the backend and issues exactly one DHT get per authority in
it, keyed by the hash of its id, leaving the local state untouched; if the
backend call errors it fails with the runtime-query error
(`CallingRuntime`) and issues no get. -/
theorem c6_request_addresses (env : Env) (st : ADState) :
    (∀ auths, env.authorities = .ok auths →
      request_addresses_of_others env st =
        (st, .ok (auths.map (fun a => Effect.get_value (hash_authority_id a)))))
    ∧ (∀ e, env.authorities = .error e →
      request_addresses_of_others env st = (st, .error .CallingRuntime)) := by
  constructor
  · intro auths h
    simp [request_addresses_of_others, h]
  · intro e h
    simp [request_addresses_of_others, h]

/-- Witness for C6 at a concrete input: under `envW` the two gets for the
snapshot `[1, 2]` are issued with the state unchanged, and under the
failing backend `envErrW` the call fails with no get issued. -/
theorem c6_request_addresses_witness :
    request_addresses_of_others envW (new 0 [] []) =
      (new 0 [] [],
        .ok [Effect.get_value (hash_authority_id 1), Effect.get_value (hash_authority_id 2)])
    ∧ request_addresses_of_others envErrW (new 0 [] []) =
        (new 0 [] [], .error .CallingRuntime) :=
  ⟨(c6_request_addresses envW (new 0 [] [])).1 [1, 2] rfl,
   (c6_request_addresses envErrW (new 0 [] [])).2 "backend failure" rfl⟩

theorem publish_ignores_publish_interval (env : Env) (st : ADState) (i : IntervalM) :
    publish_ext_addresses env { st with publish_interval := i } =
      publish_ext_addresses env st := by
  cases st
  rfl

/-- Counterexample to claim C7 as stated: in `stBadEventW` the publish
interval has fired at time 100 and `publish_ext_addresses` would issue a
put, yet `poll` — whose first `ValueFound` event fails with an unknown
authority — neither drains the second ready event nor checks the publish
timer: it issues no effect at all and leaves both intervals untouched. -/
theorem c7_counterexample :
    tickReady stBadEventW.publish_interval 100 = true
    ∧ publish_ext_addresses envW stBadEventW =
        .ok [Effect.put_value (hash_authority_id 1)
          (signedRecord 1 (encodeAuthorityAddresses (ownAddresses envW)))]
    ∧ poll envW stBadEventW 100 =
        ({ stBadEventW with
            dht_event_rx := [DhtEvent.ValueFound [(hash_authority_id 1, validValueW)]] },
         [], PollResult.Pending) :=
  ⟨rfl, rfl, rfl⟩

/-- Claim C7, amended: each `poll` invocation runs the sequence
"drain-and-process DHT events, then publish timer (acting once if fired),
then query timer (acting once if fired)" but an internal error aborts the
remaining steps of that invocation — the error is caught at the top level,
logged, and discarded; the invocation always returns `Pending` and never
completes the task, whether or not an internal operation failed. -/
theorem c7_poll_sequence_amended (env : Env) (st : ADState) (now : Nat) :
    (poll env st now).2.2 = PollResult.Pending
    ∧ (∀ st1 effs1 e, eventPhase env st = (st1, effs1, some e) →
        poll env st now = (st1, effs1, PollResult.Pending))
    ∧ (∀ st1 effs1 st2 effs2 e, eventPhase env st = (st1, effs1, none) →
        publishPhase env st1 now = (st2, effs2, some e) →
        poll env st now = (st2, effs1 ++ effs2, PollResult.Pending))
    ∧ (∀ st1 effs1 st2 effs2 st3 effs3 err3, eventPhase env st = (st1, effs1, none) →
        publishPhase env st1 now = (st2, effs2, none) →
        queryPhase env st2 now = (st3, effs3, err3) →
        poll env st now = (st3, effs1 ++ effs2 ++ effs3, PollResult.Pending)) := by
  refine ⟨?_, fun st1 effs1 e h1 => ?_, fun st1 effs1 st2 effs2 e h1 h2 => ?_,
    fun st1 effs1 st2 effs2 st3 effs3 err3 h1 h2 h3 => ?_⟩
  · cases hp : pollInner env st now with
    | mk a b =>
      cases b with
      | mk effs err => simp [poll, hp]
  · simp [poll, pollInner, h1]
  · simp [poll, pollInner, h1, h2]
  · simp [poll, pollInner, h1, h2, h3]

/-- Witness for the amended C7 at a concrete input: a full error-free pass
under `envW` with both timers fired at time 700. -/
theorem c7_poll_sequence_amended_witness :
    poll envW (new 0 [] []) 700 =
      ((poll envW (new 0 [] []) 700).1,
        [] ++ (publishPhase envW (new 0 [] []) 700).2.1
           ++ (queryPhase envW (publishPhase envW (new 0 [] []) 700).1 700).2.1,
        PollResult.Pending) := by
  have h := (c7_poll_sequence_amended envW (new 0 [] []) 700).2.2.2
    (new 0 [] []) [] (publishPhase envW (new 0 [] []) 700).1
    (publishPhase envW (new 0 [] []) 700).2.1
    (queryPhase envW (publishPhase envW (new 0 [] []) 700).1 700).1
    (queryPhase envW (publishPhase envW (new 0 [] []) 700).1 700).2.1
    (queryPhase envW (publishPhase envW (new 0 [] []) 700).1 700).2.2
    rfl rfl rfl
  rw [h]

/-- Claim C8: `new` creates two independent periodic tick sources — publish
first eligible 30 seconds after construction with a 12-hour period, query
first eligible 30 seconds after construction with a 10-minute period — and
on each driver invocation every pending tick of a fired timer is drained
before its action runs, so a delayed check causes exactly one publish
(respectively query) action regardless of how many periods were missed. -/
theorem c8_two_intervals_coalesced (t0 : Nat) (ss : List String) (events : List DhtEvent) :
    (new t0 ss events).publish_interval = interval_at (t0 + 30) (12 * 60 * 60)
    ∧ (new t0 ss events).query_interval = interval_at (t0 + 30) (10 * 60)
    ∧ (∀ i now, 0 < i.period → tickReady (drainTicks i now) now = false)
    ∧ (∀ env st now, tickReady st.publish_interval now = true →
        (publishPhase env st now).1.publish_interval = drainTicks st.publish_interval now)
    ∧ (∀ env st now1 now2, tickReady st.publish_interval now1 = true →
        tickReady st.publish_interval now2 = true →
        (publishPhase env st now1).2.1 = (publishPhase env st now2).2.1)
    ∧ (∀ env st now1 now2, tickReady st.query_interval now1 = true →
        tickReady st.query_interval now2 = true →
        (queryPhase env st now1).2.1 = (queryPhase env st now2).2.1) := by
  refine ⟨rfl, rfl, fun i now hp => ?_, fun env st now h => ?_,
    fun env st now1 now2 h1 h2 => ?_, fun env st now1 now2 h1 h2 => ?_⟩
  · by_cases hr : i.next ≤ now
    · have hmod : (now - i.next) % i.period < i.period := Nat.mod_lt _ hp
      have hlt : now - i.next < ((now - i.next) / i.period + 1) * i.period := by
        calc now - i.next
            = i.period * ((now - i.next) / i.period) + (now - i.next) % i.period :=
              (Nat.div_add_mod _ _).symm
          _ < i.period * ((now - i.next) / i.period) + i.period :=
              Nat.add_lt_add_left hmod _
          _ = ((now - i.next) / i.period + 1) * i.period := by ring
      have hnow : now < i.next + ((now - i.next) / i.period + 1) * i.period := by
        have := (Nat.sub_lt_iff_lt_add hr).mp hlt
        omega
      simp only [tickReady, drainTicks, pendingTicks, if_pos hr]
      simpa using Nat.not_le_of_lt hnow
    · simp [tickReady, drainTicks, pendingTicks, hr]
  · cases hpub : publish_ext_addresses env
        { st with publish_interval := drainTicks st.publish_interval now } <;>
      simp [publishPhase, h, hpub]
  · have e1 := publish_ignores_publish_interval env st (drainTicks st.publish_interval now1)
    have e2 := publish_ignores_publish_interval env st (drainTicks st.publish_interval now2)
    cases hpub : publish_ext_addresses env st <;>
      simp [publishPhase, h1, h2, e1, e2, hpub]
  · cases henv : env.authorities <;>
      simp [queryPhase, h1, h2, request_addresses_of_others, henv]

/-- Witness for C8 at a concrete input: the constructed intervals, a
coalescing drain (deadline 30, period 600, polled at 1900 with four ticks
pending), and the publish effects agreeing between an on-time check
(time 30) and a very late check (time 500000). -/
theorem c8_two_intervals_coalesced_witness :
    (new 0 [] []).publish_interval = interval_at (0 + 30) (12 * 60 * 60)
    ∧ tickReady (drainTicks (interval_at 30 600) 1900) 1900 = false
    ∧ (publishPhase envW (new 0 [] []) 30).2.1 = (publishPhase envW (new 0 [] []) 500000).2.1 :=
  ⟨(c8_two_intervals_coalesced 0 [] []).1,
   (c8_two_intervals_coalesced 0 [] []).2.2.1 (interval_at 30 600) 1900 (by decide),
   (c8_two_intervals_coalesced 0 [] []).2.2.2.2.1 envW (new 0 [] []) 30 500000
     (by decide) (by decide)⟩

/-- Claim C9: the publisher enforces no 5-address cap on outgoing records:
with a configured sentry list of more than 5 parsed addresses,
`publish_ext_addresses` serializes and signs all of them (the serialized
list decodes back to the full list), and `new` keeps every parsed sentry
address (only a warning is logged); the cap applies only to records
received from the DHT. -/
theorem c9_no_cap_on_outgoing (env : Env) (st : ADState) (addrs : List Multiaddr)
    (h : st.sentry_nodes = some addrs) (_hlen : 5 < addrs.length) :
    publish_ext_addresses env st =
      (match get_priv_keys_within_authority_set env with
       | .error e => .error e
       | .ok keys => .ok (keys.map (fun key =>
           Effect.put_value (hash_authority_id (pairPublic key))
             (signedRecord key (encodeAuthorityAddresses (addrs.map multiaddrToVec))))))
    ∧ decodeAuthorityAddresses (encodeAuthorityAddresses (addrs.map multiaddrToVec))
        = some (addrs.map multiaddrToVec)
    ∧ (addrs.map multiaddrToVec).length = addrs.length
    ∧ (∀ now ss events, ss ≠ [] →
        (new now ss events).sentry_nodes = some (ss.filterMap parseMultiaddr)) := by
  refine ⟨?_, decode_encode_authorityAddresses _, List.length_map _ _, ?_⟩
  · cases hk : get_priv_keys_within_authority_set env with
    | error e => simp [publish_ext_addresses, h, hk]
    | ok keys => simp [publish_ext_addresses, h, hk, signedRecord]
  · intro now ss events hne
    have hie : ss.isEmpty = false := by
      cases ss with
      | nil => exact absurd rfl hne
      | cons a tl => rfl
    simp [new, hie]

/-- Witness for C9 at a concrete input: six sentry addresses are all
published in one signed record under `envW`. -/
theorem c9_no_cap_on_outgoing_witness :
    publish_ext_addresses envW stSentry6W =
      .ok [Effect.put_value (hash_authority_id 1)
        (signedRecord 1
          (encodeAuthorityAddresses
            (([[1], [2], [3], [4], [5], [6]] : List Multiaddr).map multiaddrToVec)))] := by
  have h := c9_no_cap_on_outgoing envW stSentry6W [[1], [2], [3], [4], [5], [6]] rfl (by decide)
  rw [h.1]
  rfl

theorem processValues_append_of_ok {idx : List (DhtKey × AuthorityId)}
    {pre : List (DhtKey × Bytes)} (c : AddressCache) (l : List (DhtKey × Bytes))
    (hpre : ∀ p ∈ pre, ∃ r, checkPair idx p.1 p.2 = .ok r) :
    processValues idx c (pre ++ l) = processValues idx (insertChecked idx c pre) l := by
  induction pre generalizing c with
  | nil => simp [insertChecked]
  | cons p tl ih =>
    obtain ⟨k, v⟩ := p
    obtain ⟨⟨a, ad⟩, hok⟩ := hpre (k, v) (List.mem_cons_self _ _)
    rw [List.cons_append, processValues_cons_ok _ _ hok]
    rw [ih (cacheInsert c a ad) (fun q hq => hpre q (List.mem_cons_of_mem _ hq))]
    simp [insertChecked, hok]

/-- Claim C10: an aborting `ValueFound` batch is not atomic with respect to
the cache: the purge of authorities no longer in the current set has been
applied and every pair processed successfully before the failing pair
remains inserted; only the priority-group push is skipped. -/
theorem c10_aborted_batch_not_atomic (env : Env) (cache : AddressCache)
    (auths : List AuthorityId) (pre : List (DhtKey × Bytes)) (key : DhtKey) (value : Bytes)
    (rest : List (DhtKey × Bytes)) (e : Error)
    (h : env.authorities = .ok auths)
    (hpre : ∀ p ∈ pre, ∃ r, checkPair (authorityIndex auths) p.1 p.2 = .ok r)
    (hbad : checkPair (authorityIndex auths) key value = .error e) :
    handle_dht_value_found_event env cache (pre ++ (key, value) :: rest) =
      (insertChecked (authorityIndex auths) (purge_old_authorities_from_cache cache auths) pre,
       [], some e) := by
  apply handle_eq_of_processValues_err h
  rw [processValues_append_of_ok _ _ hpre]
  exact processValues_cons_err _ _ hbad

/-- Witness for C10 at a concrete input: a stale entry for authority `3` is
purged, the valid first pair for authority `1` stays cached, the unknown
second key aborts the batch and no push is issued. -/
theorem c10_aborted_batch_not_atomic_witness :
    handle_dht_value_found_event envW [(3, [[9]])]
        ([(hash_authority_id 1, validValueW)] ++ (⟨99⟩, ([] : Bytes)) :: []) =
      ([(1, [[10]])], [], some .MatchingHashedAuthorityIdWithAuthorityId) := by
  have h := c10_aborted_batch_not_atomic envW [(3, [[9]])] [1, 2]
    [(hash_authority_id 1, validValueW)] ⟨99⟩ [] []
    .MatchingHashedAuthorityIdWithAuthorityId rfl
    (fun p hp => by
      rw [List.mem_singleton] at hp
      subst hp
      exact ⟨(1, [[10]]), rfl⟩)
    rfl
  rw [h]
  rfl

end AuthDisc
